import Mathlib

/-!
Verification model of the parallel-query data-exchange and worker-orchestration
layer of kunpengcompute/mysql-server (message queue framing, worker launch and
shutdown in `sql/records.cc`, and the feasibility gate in `pq_condition`).

Byte buffers are modelled as `List Nat` (each entry a byte value), cumulative
read/write offsets as `Nat`, and the ring index as offset `% ring_size`.
-/

namespace PQModel

/-- Write the bytes of `data` into the ring `buf` of size `size`, starting at
cumulative position `pos` (physical index `pos % size`), wrapping around. -/
def ringWrite (size : Nat) (buf : List Nat) (pos : Nat) : List Nat → List Nat
  | [] => buf
  | b :: bs => ringWrite size (buf.set (pos % size) b) (pos + 1) bs

/-- Read `n` bytes from the ring `buf` of size `size` starting at cumulative
position `pos`, wrapping around. -/
def ringRead (size : Nat) (buf : List Nat) (pos n : Nat) : List Nat :=
  (List.range n).map fun i => buf.getD ((pos + i) % size) 0

/-- Little-endian 4-byte encoding of a 32-bit unsigned length, as written by the
length word of a message frame. -/
def u32Bytes (n : Nat) : List Nat :=
  [n % 256, n / 256 % 256, n / 65536 % 256, n / 16777216 % 256]

/-- Decode a 4-byte little-endian unsigned length word. -/
def u32Val (bs : List Nat) : Nat :=
  match bs with
  | [b0, b1, b2, b3] => b0 + 256 * b1 + 65536 * b2 + 16777216 * b3
  | _ => 0

/-- Result codes of the message-queue operations (`MQ_RESULT` in
`sql/msg_queue.h`, as used by `unittest/gunit/parallel_query/message_queue-t.cc`). -/
inductive MQ_RESULT
  | MQ_SUCCESS
  | MQ_WOULD_BLOCK
  | MQ_DETACHED
deriving DecidableEq, Repr

/-- Detach state of a queue (`MQ_NOT_DETACHED` / `MQ_TMP_DETACHED` (soft) /
`MQ_HAVE_DETACHED` (hard), as used by the unit tests). -/
inductive MQ_DETACH_STATUS
  | MQ_NOT_DETACHED
  | MQ_TMP_DETACHED
  | MQ_HAVE_DETACHED
deriving DecidableEq, Repr

open MQ_RESULT MQ_DETACH_STATUS

/-- Ring-buffer state shared by the two endpoints (`MQueue`): fixed `m_ring_size`
byte ring, cumulative write/read offsets, and the detach state. -/
structure MQueue where
  m_ring_size : Nat
  m_buffer : List Nat
  m_bytes_written : Nat
  m_bytes_read : Nat
  detached : MQ_DETACH_STATUS
deriving DecidableEq, Repr

/-- Per-endpoint handle (`MQueue_handle`): the shared queue plus a growable local
staging buffer of capacity `m_buffer_len` used by `receive`. -/
structure MQueue_handle where
  m_queue : MQueue
  m_buffer_len : Nat
  m_buffer : List Nat
deriving DecidableEq, Repr

/-- Execution-context state relevant to the queue operations: the global
per-query cancellation/error flag `thd->pq_error`. -/
structure THDq where
  pq_error : Bool
deriving DecidableEq, Repr

/-- Outcome of one call to `send`: either the call returns a result code (with
the updated handle), or the calling thread suspends on the consumer-wait
signal with the handle untouched. -/
inductive SendOutcome
  | ret (r : MQ_RESULT) (h : MQueue_handle)
  | suspended (h : MQueue_handle)
deriving DecidableEq, Repr

/-- Outcome of one call to `receive`: a result code with updated handle and the
received byte count, or a suspension on the producer-wait signal. -/
inductive RecvOutcome
  | ret (r : MQ_RESULT) (h : MQueue_handle) (outLen : Nat)
  | suspended (h : MQueue_handle)
deriving DecidableEq, Repr

/-- Number of unread bytes currently held in the ring. -/
def MQueue.used (q : MQueue) : Nat := q.m_bytes_written - q.m_bytes_read

/-- Free space in the ring. -/
def MQueue.avail (q : MQueue) : Nat := q.m_ring_size - q.used

/-- State update performed by a successful `send`: append the frame — 4-byte
little-endian length word, then `len` payload bytes — at the write offset of
the ring (wrapping around) and advance the write offset past it. -/
def sentHandle (h : MQueue_handle) (data : List Nat) (len : Nat) : MQueue_handle :=
  { h with
    m_queue :=
      { h.m_queue with
        m_buffer := ringWrite h.m_queue.m_ring_size h.m_queue.m_buffer
          h.m_queue.m_bytes_written (u32Bytes len ++ data.take len)
        m_bytes_written := h.m_queue.m_bytes_written + 4 + len } }

/-- Modelled from the spec: `MQueue_handle::send(datap, len, nowait)`
(implementation file `sql/msg_queue.cc` is not part of the repository snapshot;
only its unit tests are). A frame is a 4-byte little-endian length word
followed by `len` payload bytes; the sender requires `4 + len + 1` free bytes
before writing. The call fails with `MQ_DETACHED` when the execution context's
`pq_error` flag is set or the queue is hard-detached; a soft
(`MQ_TMP_DETACHED`) detach still lets the write land. The unit test
`message_queue-t.cc:130-136` fixes the polarity of the third argument: passing
`true` on a full (capacity-0) queue returns `MQ_WOULD_BLOCK` immediately, so
the flag is a no-wait flag; with `false` the call suspends on the
consumer-wait signal instead. -/
def send (thd : THDq) (h : MQueue_handle) (data : List Nat) (len : Nat)
    (nowait : Bool) : SendOutcome :=
  if thd.pq_error then .ret MQ_DETACHED h
  else if h.m_queue.detached = MQ_HAVE_DETACHED then .ret MQ_DETACHED h
  else if h.m_queue.avail < 4 + len + 1 then
    if nowait then .ret MQ_WOULD_BLOCK h else .suspended h
  else
    .ret MQ_SUCCESS (sentHandle h data len)

/-- State update performed by a successful `receive` of a frame whose length
word decoded to `len`: copy the payload (ring wraparound included) into the
staging buffer — grown first when the payload exceeds its capacity — and
advance the read offset past the frame. -/
def recvStep (h : MQueue_handle) (len : Nat) : MQueue_handle :=
  { m_queue := { h.m_queue with m_bytes_read := h.m_queue.m_bytes_read + 4 + len }
    m_buffer_len := if h.m_buffer_len < len then len else h.m_buffer_len
    m_buffer :=
      if h.m_buffer_len < len then
        ringRead h.m_queue.m_ring_size h.m_queue.m_buffer (h.m_queue.m_bytes_read + 4) len
      else
        ringRead h.m_queue.m_ring_size h.m_queue.m_buffer (h.m_queue.m_bytes_read + 4) len
          ++ h.m_buffer.drop len }

/-- Modelled from the spec: `MQueue_handle::receive(&datap, &outLen)`
(implementation file `sql/msg_queue.cc` is not part of the repository
snapshot). The call fails with `MQ_DETACHED` at once when the execution
context's `pq_error` flag is set. Otherwise it needs a complete frame: it
decodes the 4-byte length word, grows the local staging buffer when the
payload exceeds its current capacity, copies the payload out of the ring
(wraparound included) and advances the read offset past the frame. With no
complete frame buffered it returns `MQ_DETACHED` if the queue is
hard-detached, else it suspends on the producer-wait signal. -/
def receive (thd : THDq) (h : MQueue_handle) : RecvOutcome :=
  if thd.pq_error then .ret MQ_DETACHED h 0
  else if h.m_queue.used < 4 then
    (if h.m_queue.detached = MQ_HAVE_DETACHED then .ret MQ_DETACHED h 0 else .suspended h)
  else if h.m_queue.used < 4 + u32Val (ringRead h.m_queue.m_ring_size h.m_queue.m_buffer
      h.m_queue.m_bytes_read 4) then
    (if h.m_queue.detached = MQ_HAVE_DETACHED then .ret MQ_DETACHED h 0 else .suspended h)
  else
    .ret MQ_SUCCESS
      (recvStep h (u32Val (ringRead h.m_queue.m_ring_size h.m_queue.m_buffer
        h.m_queue.m_bytes_read 4)))
      (u32Val (ringRead h.m_queue.m_ring_size h.m_queue.m_buffer h.m_queue.m_bytes_read 4))

/-- Execution context with the error flag clear, as after `Server_initializer`
setup in the unit tests. -/
def thdOK : THDq := ⟨false⟩

/-- Execution context with `thd->pq_error = true` set. -/
def thdErr : THDq := ⟨true⟩

/-- A freshly constructed ring of the given capacity: zeroed storage, both
offsets zero, attached. -/
def freshQueue (cap : Nat) : MQueue :=
  ⟨cap, List.replicate cap 0, 0, 0, MQ_NOT_DETACHED⟩

/-- A freshly constructed endpoint over a fresh ring of capacity `cap` with a
staging buffer of capacity `s`. -/
def freshHandle (cap s : Nat) : MQueue_handle :=
  ⟨freshQueue cap, s, List.replicate s 0⟩

/-- The `available == 0` fixture of `MessageQueueTest.SendMsgError`: a queue
with `m_ring_size = 0` over a 10-byte backing array, handle staging
capacity 10. -/
def handleCap0 : MQueue_handle :=
  ⟨⟨0, List.replicate 10 0, 0, 0, MQ_NOT_DETACHED⟩, 10, List.replicate 10 0⟩

/-- Modelled from the spec: bit value of `PQ_worker_state::COMPELET` (the
`sql_parallel.h` header is not in the snapshot; `records.cc` uses the states
only as a bitmask, so any assignment of distinct bits is faithful). -/
def PQ_COMPELET : Nat := 4

/-- Modelled from the spec: bit value of `PQ_worker_state::ERROR`. -/
def PQ_STATE_ERROR : Nat := 8

/-- Modelled from the spec: bit value of `PQ_worker_state::READY`. -/
def PQ_READY : Nat := 2

/-- Per-slot worker manager state observed by the coordinator in
`ParallelScanIterator::pq_wait_workers_finished` (`records.cc:573-610`):
`thread_id` is zero when the OS thread was never spawned, `m_active` records
whether the worker reached a stable state after launch, and `m_status` is the
`PQ_worker_state` bitmask. -/
structure PQ_worker_manager where
  thread_id : Nat
  m_active : Bool
  m_status : Nat
deriving DecidableEq, Repr

/-- Observable actions performed by the coordinator during shutdown, in
program order: hard-detaching a slot's message queue, blocking on a worker's
status (with the awaited status bitmask), and joining a slot's OS thread. -/
inductive GatherEvent
  | detachQueue (slot : Nat)
  | waitStatus (slot : Nat) (mask : Nat)
  | joinThread (slot : Nat)
deriving DecidableEq, Repr

/-- Event trace of `ParallelScanIterator::pq_wait_workers_finished`
(`records.cc:573-610`): when the record gather exists, first mark every
present queue handle `MQ_HAVE_DETACHED`; then, for every slot whose
`thread_id` is non-zero, wait for `COMPELET | ERROR` when the worker is
active and not already complete, and join the OS thread unconditionally. -/
def pq_wait_workers_finished (dop : Nat) (hasRecordGather : Bool)
    (hasHandle : Nat → Bool) (w : Nat → PQ_worker_manager) : List GatherEvent :=
  (if hasRecordGather then
    (List.range dop).filterMap
      (fun i => if hasHandle i then some (GatherEvent.detachQueue i) else none)
  else [])
  ++ (List.range dop).flatMap (fun i =>
      if (w i).thread_id ≠ 0 then
        (if (w i).m_active = true ∧ (w i).m_status &&& PQ_COMPELET = 0 then
          [GatherEvent.waitStatus i (PQ_COMPELET ||| PQ_STATE_ERROR)]
        else [])
        ++ [GatherEvent.joinThread i]
      else [])

/-- Coordinator-side state accumulated by `pq_launch_worker`: number of
workers that became active, slots for which a start-up warning was logged,
and slots whose queue was hard-detached because the spawn failed. -/
structure LaunchState where
  launch_workers : Nat
  warnings : List Nat
  detached_slots : List Nat
deriving DecidableEq, Repr

/-- Slot loop of `ParallelScanIterator::pq_launch_worker`
(`records.cc:510-568`): each iteration first checks the execution context's
error flags (jumping to the error exit when set), then attempts to spawn the
slot's thread. `spawn i` is the thread id produced for slot `i` (zero when
`mysql_thread_create` fails) and `becomesActive i` the result of the
coordinator's `wait_for_status(READY|COMPELET|ERROR)`. A zero thread id logs
a warning, hard-detaches the slot's queue and continues; a spawned worker
that fails to become active jumps to the error exit; `none` models the error
exit (`goto err` / zero launched workers). -/
def pq_launch_loop (spawn : Nat → Nat) (becomesActive : Nat → Bool) (errFlag : Bool) :
    List Nat → LaunchState → Option LaunchState
  | [], st => if st.launch_workers = 0 then none else some st
  | i :: rest, st =>
      if errFlag then none
      else if spawn i ≠ 0 then
        if becomesActive i then
          pq_launch_loop spawn becomesActive errFlag rest
            { st with launch_workers := st.launch_workers + 1 }
        else none
      else
        pq_launch_loop spawn becomesActive errFlag rest
          { st with warnings := st.warnings ++ [i],
                    detached_slots := st.detached_slots ++ [i] }

/-- `ParallelScanIterator::pq_launch_worker` over `dop` slots starting from an
empty launch state. -/
def pq_launch_worker (spawn : Nat → Nat) (becomesActive : Nat → Bool)
    (errFlag : Bool) (dop : Nat) : Option LaunchState :=
  pq_launch_loop spawn becomesActive errFlag (List.range dop) ⟨0, [], []⟩

/-- Spawn oracle of the `dop = 2, worker 0 fails to spawn` scenario. -/
def spawnFail0 : Nat → Nat := fun i => if i = 0 then 0 else 7

/-- Activation oracle where every spawned worker reaches a stable state. -/
def alwaysActive : Nat → Bool := fun _ => true

/-- Spawn oracle where every slot's thread spawn succeeds (thread id 7). -/
def spawnBoth : Nat → Nat := fun _ => 7

/-- Activation oracle where worker 0 becomes active but worker 1 fails its
`wait_for_status` (the `records.cc:544-547` path: "partial workers may fail
before execution"). -/
def activeFail1 : Nat → Bool := fun i => i == 0

/-- Storage-engine error code `HA_ERR_TABLE_DEF_CHANGED` (`my_base.h`). -/
def HA_ERR_TABLE_DEF_CHANGED : Nat := 159

/-- Inputs read by `ParallelScanIterator::pq_error_code`
(`records.cc:612-654`): the gather's recorded handler error, the
coordinator's kill flag, the template thread's diagnostics area (error state,
error number, and the list of condition error numbers it holds), the
coordinator's own error state, the `pq_error` flag and the
`running_explain_analyze` flag. -/
structure ErrCtx where
  m_ha_err : Nat
  killed : Bool
  temp_is_error : Bool
  temp_errno : Nat
  temp_conds : List Nat
  thd_is_error : Bool
  pq_error : Bool
  running_explain_analyze : Bool
deriving DecidableEq, Repr

/-- Observable outcome of `pq_error_code`: the returned code, the gather's
handler-error field afterwards, whether a kill message was sent, the error
re-raised on the template thread, the condition error numbers raised on the
coordinator, and whether the generic `ER_PARALLEL_EXEC_ERROR` was raised. -/
structure ErrOutcome where
  ret : Nat
  m_ha_err_after : Nat
  kill_message_sent : Bool
  temp_reraised : List Nat
  leader_raised : List Nat
  parallel_exec_error_raised : Bool
deriving DecidableEq, Repr

/-- `ParallelScanIterator::pq_error_code` (`records.cc:612-654`): a recorded
`HA_ERR_TABLE_DEF_CHANGED` is returned at once (resetting the field) before
anything is raised; otherwise the kill flag sends a kill message (making the
coordinator's diagnostics an error), the template thread's error is
re-raised, every condition held by the template thread's diagnostics area is
raised on the coordinator, `ER_PARALLEL_EXEC_ERROR` is raised exactly when
neither thread holds an error while `pq_error` is set outside
`EXPLAIN ANALYZE`, and the function returns 1. -/
def pq_error_code (c : ErrCtx) : ErrOutcome :=
  if c.m_ha_err = HA_ERR_TABLE_DEF_CHANGED then
    { ret := HA_ERR_TABLE_DEF_CHANGED, m_ha_err_after := 0, kill_message_sent := false,
      temp_reraised := [], leader_raised := [], parallel_exec_error_raised := false }
  else
    { ret := 1
      m_ha_err_after := c.m_ha_err
      kill_message_sent := c.killed
      temp_reraised := if c.temp_is_error then [c.temp_errno] else []
      leader_raised := c.temp_conds
      parallel_exec_error_raised :=
        !c.temp_is_error && !(c.thd_is_error || c.killed) && c.pq_error
          && !c.running_explain_analyze }

/-- `ParallelScanIterator::End` (`records.cc:684-689`): wait for all workers
to finish, then compute the error code; the pair collects the shutdown event
trace and the error outcome. -/
def ParallelScanIterator_End (dop : Nat) (hasRecordGather : Bool)
    (hasHandle : Nat → Bool) (w : Nat → PQ_worker_manager) (c : ErrCtx) :
    List GatherEvent × ErrOutcome :=
  (pq_wait_workers_finished dop hasRecordGather hasHandle w, pq_error_code c)

/-- One pass of the timed-wait loop of `check_pq_running_threads`: the outcome
of a `mysql_cond_timedwait` on `COND_pq_threads_running` — whether it timed
out, and the value of the global `parallel_threads_running` counter observed
after reacquiring the mutex. -/
structure WaitObs where
  timedOut : Bool
  running : Nat
deriving DecidableEq, Repr

/-- Timed-wait loop of `check_pq_running_threads`
(`pq_copy_table_list-t.cc:940-987`, `start:` label): after each wait the
budget test `parallel_threads_running + dop <= parallel_max_threads` is
re-evaluated on the freshly observed counter; on success both counters grow
by `dop`, on timeout the function gives up with the counters untouched, and
on a non-timeout wake-up that still fails the test the remaining timeout is
recomputed and the loop waits again. Returns
(success, global counter after the call, thread counter after the call). -/
def check_pq_wait_loop (dop maxThreads t0 : Nat) :
    List WaitObs → Nat → Bool × Nat × Nat
  | [], gLast => (false, gLast, t0)
  | o :: rest, _ =>
      if o.running + dop ≤ maxThreads then (true, o.running + dop, t0 + dop)
      else if o.timedOut then (false, o.running, t0)
      else check_pq_wait_loop dop maxThreads t0 rest o.running

/-- `check_pq_running_threads(dop, timeout_ms)`
(`pq_copy_table_list-t.cc:940-987`) under the mutex: `g0` is
`parallel_threads_running` on entry, `maxThreads` is
`parallel_max_threads`, `t0` the calling thread's `pq_threads_running`, and
`obs` the sequence of timed-wait outcomes. When the budget admits `dop` more
workers the counters are bumped at once; with a zero timeout the call fails
immediately; otherwise the timed-wait loop decides. -/
def check_pq_running_threads (dop timeout_ms maxThreads g0 t0 : Nat)
    (obs : List WaitObs) : Bool × Nat × Nat :=
  if g0 + dop ≤ maxThreads then (true, g0 + dop, t0 + dop)
  else if timeout_ms = 0 then (false, g0, t0)
  else check_pq_wait_loop dop maxThreads t0 obs g0

/-- The fields of `THD` read or written by `set_pq_dop`
(`pq_copy_table_list-t.cc:828-832`), plus `pq_threads_running` as a witness
that unrelated state is untouched. -/
structure THDpq where
  no_pq : Bool
  force_parallel_execute : Bool
  parallel_default_dop : Nat
  pq_dop : Nat
  pq_threads_running : Nat
deriving DecidableEq, Repr

/-- `set_pq_dop(thd)` (`pq_copy_table_list-t.cc:828-832`): assign
`thd->pq_dop = thd->variables.parallel_default_dop` exactly when `!thd->no_pq
&& thd->variables.force_parallel_execute && thd->pq_dop == 0`. -/
def set_pq_dop (thd : THDpq) : THDpq :=
  if !thd.no_pq && thd.force_parallel_execute && thd.pq_dop == 0 then
    { thd with pq_dop := thd.parallel_default_dop }
  else thd

/-- Fixture: a queue handle present in every slot. -/
def handleAll : Nat → Bool := fun _ => true

/-- Fixture: slot 0 spawned (thread id 5), active, still `READY`; slot 1 never
spawned (thread id 0). -/
def workersFix : Nat → PQ_worker_manager :=
  fun i => if i = 0 then ⟨5, true, PQ_READY⟩ else ⟨0, false, 0⟩

/-- Fixture: an error context recording `HA_ERR_TABLE_DEF_CHANGED`. -/
def errCtxHA : ErrCtx := ⟨159, false, false, 0, [], false, true, false⟩

/-- Fixture: an error context with `pq_error` set and no diagnostic anywhere. -/
def errCtxGeneric : ErrCtx := ⟨0, false, false, 0, [], false, true, false⟩

theorem ringWrite_length (size : Nat) (data : List Nat) :
    ∀ (buf : List Nat) (pos : Nat), (ringWrite size buf pos data).length = buf.length := by
  induction data with
  | nil => intro buf pos; rfl
  | cons b bs ih =>
      intro buf pos
      simp only [ringWrite, ih, List.length_set]

theorem ringWrite_getD_of_ne (size : Nat) (data : List Nat) :
    ∀ (buf : List Nat) (pos k : Nat),
      (∀ j, j < data.length → (pos + j) % size ≠ k) →
      (ringWrite size buf pos data).getD k 0 = buf.getD k 0 := by
  induction data with
  | nil => intro buf pos k _; rfl
  | cons b bs ih =>
      intro buf pos k hne
      simp only [ringWrite]
      rw [ih (buf.set (pos % size) b) (pos + 1) k]
      · have hk : pos % size ≠ k := by
          have := hne 0 (by simp)
          simpa using this
        rcases Nat.lt_or_ge k buf.length with hlt | hge
        · rw [List.getD_eq_getElem?_getD, List.getD_eq_getElem?_getD,
              List.getElem?_set_ne hk]
        · rw [List.getD_eq_getElem?_getD, List.getD_eq_getElem?_getD]
          rw [List.getElem?_eq_none (by simpa using hge),
              List.getElem?_eq_none (by simpa using hge)]
      · intro j hj
        have := hne (j + 1) (by simpa using Nat.succ_lt_succ hj)
        have heq : pos + 1 + j = pos + (j + 1) := by omega
        rw [heq]
        exact this

theorem mod_ne_of_lt_of_pos {size a b pos : Nat} (hab : a < b) (hb : b < size) :
    (pos + a) % size ≠ (pos + b) % size := by
  intro h
  have hsize : 0 < size := Nat.lt_of_le_of_lt (Nat.zero_le b) hb
  have hmod : (pos + a) ≡ (pos + b) [MOD size] := h
  have hmod2 : a ≡ b [MOD size] := Nat.ModEq.add_left_cancel' pos hmod
  have ha : a % size = a := Nat.mod_eq_of_lt (Nat.lt_trans hab hb)
  have hb2 : b % size = b := Nat.mod_eq_of_lt hb
  have : a = b := by
    have := hmod2
    unfold Nat.ModEq at this
    omega
  omega

theorem ringWrite_getD (size : Nat) (data : List Nat) :
    ∀ (buf : List Nat) (pos i : Nat), i < data.length → data.length ≤ size →
      buf.length = size →
      (ringWrite size buf pos data).getD ((pos + i) % size) 0 = data.getD i 0 := by
  induction data with
  | nil => intro buf pos i hi _ _; simp at hi
  | cons b bs ih =>
      intro buf pos i hi hlen hbuf
      have hsize : 0 < size := by simp at hlen; omega
      match i with
      | 0 =>
          simp only [ringWrite]
          rw [ringWrite_getD_of_ne size bs (buf.set (pos % size) b) (pos + 1) ((pos + 0) % size)]
          · have hidx : pos % size < buf.length := by rw [hbuf]; exact Nat.mod_lt pos hsize
            simp only [Nat.add_zero]
            rw [List.getD_eq_getElem?_getD, List.getElem?_set_self (by omega)]
            simp
          · intro j hj
            have h1 : (0 : Nat) < 1 + j := by omega
            have h2 : 1 + j < size := by simp at hlen; omega
            have hne2 := @mod_ne_of_lt_of_pos size 0 (1 + j) pos h1 h2
            have harr : pos + 1 + j = pos + (1 + j) := by omega
            rw [harr]
            exact fun hcontra => hne2 hcontra.symm
      | Nat.succ j =>
          simp only [ringWrite]
          have : pos + (j + 1) = (pos + 1) + j := by omega
          rw [this]
          have hres := ih (buf.set (pos % size) b) (pos + 1) j (by simp at hi; omega)
            (by simp at hlen; omega) (by simp [hbuf])
          rw [hres]
          simp

theorem ringRead_length (size : Nat) (buf : List Nat) (pos n : Nat) :
    (ringRead size buf pos n).length = n := by
  simp [ringRead]

/-- Reading a sub-range of freshly written data returns exactly those bytes,
wraparound included, as long as the written block fits in the ring. -/
theorem ringRead_ringWrite_sub (size : Nat) (buf : List Nat) (pos : Nat) (data : List Nat)
    (a n : Nat) (h1 : a + n ≤ data.length) (h2 : data.length ≤ size)
    (h3 : buf.length = size) :
    ringRead size (ringWrite size buf pos data) (pos + a) n = (data.drop a).take n := by
  apply List.ext_getElem
  · simp [ringRead_length]; omega
  · intro i hi1 hi2
    have hi : i < n := by simpa [ringRead_length] using hi1
    have hlt : a + i < data.length := by omega
    have key := ringWrite_getD size data buf pos (a + i) hlt h2 h3
    simp only [ringRead, List.getElem_map, List.getElem_range, List.getElem_take,
      List.getElem_drop]
    have harr : pos + a + i = pos + (a + i) := by omega
    rw [harr, key, List.getD_eq_getElem?_getD, List.getElem?_eq_getElem hlt]
    rfl

theorem u32Val_u32Bytes (n : Nat) (h : n < 4294967296) : u32Val (u32Bytes n) = n := by
  simp only [u32Bytes, u32Val]
  omega

theorem u32Bytes_length (n : Nat) : (u32Bytes n).length = 4 := rfl

theorem send_success (thd : THDq) (h : MQueue_handle) (data : List Nat) (len : Nat)
    (nw : Bool) (herr : thd.pq_error = false)
    (hdet : h.m_queue.detached ≠ MQ_HAVE_DETACHED)
    (hfit : 4 + len + 1 ≤ h.m_queue.avail) :
    send thd h data len nw = .ret MQ_SUCCESS (sentHandle h data len) := by
  have hsp : ¬ (h.m_queue.avail < 4 + len + 1) := by omega
  simp only [send, herr, hsp, if_false]
  rw [if_neg hdet]
  simp

theorem receive_frame (thd : THDq) (h : MQueue_handle) (L : Nat)
    (herr : thd.pq_error = false)
    (hused : h.m_queue.used = 4 + L)
    (hword : u32Val (ringRead h.m_queue.m_ring_size h.m_queue.m_buffer
      h.m_queue.m_bytes_read 4) = L) :
    receive thd h = .ret MQ_SUCCESS (recvStep h L) L := by
  have h4 : ¬ (h.m_queue.used < 4) := by omega
  have h5 : ¬ (h.m_queue.used < 4 + L) := by omega
  simp only [receive, herr, h4, if_false, hword, h5]
  simp

/-- One full framing round trip on an empty ring: `send` lays the frame down as
a 4-byte little-endian length word followed by the payload bytes and
`receive` hands the payload back whole, growing the staging buffer when
needed. Holds for any cumulative offsets, wraparound included. -/
theorem send_receive_roundtrip (thd : THDq) (h : MQueue_handle) (p : List Nat) (nw : Bool)
    (herr : thd.pq_error = false)
    (hdet : h.m_queue.detached ≠ MQ_HAVE_DETACHED)
    (hempty : h.m_queue.m_bytes_written = h.m_queue.m_bytes_read)
    (hbuf : h.m_queue.m_buffer.length = h.m_queue.m_ring_size)
    (hfit : 4 + p.length + 1 ≤ h.m_queue.m_ring_size)
    (h32 : p.length < 4294967296) :
    ∃ h1 h2,
      send thd h p p.length nw = .ret MQ_SUCCESS h1 ∧
      receive thd h1 = .ret MQ_SUCCESS h2 p.length ∧
      ringRead h.m_queue.m_ring_size h1.m_queue.m_buffer h.m_queue.m_bytes_written 4
        = u32Bytes p.length ∧
      ringRead h.m_queue.m_ring_size h1.m_queue.m_buffer (h.m_queue.m_bytes_written + 4)
        p.length = p ∧
      h2.m_buffer.take p.length = p ∧
      h2.m_buffer_len = max h.m_buffer_len p.length ∧
      h2.m_queue.m_bytes_written = h2.m_queue.m_bytes_read ∧
      h2.m_queue.m_buffer.length = h2.m_queue.m_ring_size ∧
      h2.m_queue.m_ring_size = h.m_queue.m_ring_size ∧
      h2.m_queue.detached = h.m_queue.detached := by
  have htake : p.take p.length = p := List.take_length p
  have hframelen : (u32Bytes p.length ++ p.take p.length).length = 4 + p.length := by
    simp [htake, u32Bytes_length]
  have havail : 4 + p.length + 1 ≤ h.m_queue.avail := by
    simp only [MQueue.avail, MQueue.used]
    omega
  have hsend := send_success thd h p p.length nw herr hdet havail
  have hword : ringRead h.m_queue.m_ring_size
      (ringWrite h.m_queue.m_ring_size h.m_queue.m_buffer h.m_queue.m_bytes_written
        (u32Bytes p.length ++ p.take p.length))
      h.m_queue.m_bytes_written 4 = u32Bytes p.length := by
    have hr := ringRead_ringWrite_sub h.m_queue.m_ring_size h.m_queue.m_buffer
      h.m_queue.m_bytes_written (u32Bytes p.length ++ p.take p.length) 0 4
      (by omega) (by omega) hbuf
    rw [Nat.add_zero] at hr
    rw [hr, List.drop_zero, List.take_left' (u32Bytes_length p.length)]
  have hpay : ringRead h.m_queue.m_ring_size
      (ringWrite h.m_queue.m_ring_size h.m_queue.m_buffer h.m_queue.m_bytes_written
        (u32Bytes p.length ++ p.take p.length))
      (h.m_queue.m_bytes_written + 4) p.length = p := by
    have hr := ringRead_ringWrite_sub h.m_queue.m_ring_size h.m_queue.m_buffer
      h.m_queue.m_bytes_written (u32Bytes p.length ++ p.take p.length) 4 p.length
      (by omega) (by omega) hbuf
    rw [hr, List.drop_left' (u32Bytes_length p.length), htake, List.take_length]
  have hused1 : (sentHandle h p p.length).m_queue.used = 4 + p.length := by
    simp only [sentHandle, MQueue.used]
    omega
  have hword1 : u32Val (ringRead (sentHandle h p p.length).m_queue.m_ring_size
      (sentHandle h p p.length).m_queue.m_buffer
      (sentHandle h p p.length).m_queue.m_bytes_read 4) = p.length := by
    simp only [sentHandle, ← hempty]
    rw [hword, u32Val_u32Bytes _ h32]
  have hrecv := receive_frame thd (sentHandle h p p.length) p.length herr hused1 hword1
  have hpay1 : ringRead (sentHandle h p p.length).m_queue.m_ring_size
      (sentHandle h p p.length).m_queue.m_buffer
      ((sentHandle h p p.length).m_queue.m_bytes_read + 4) p.length = p := by
    simp only [sentHandle, ← hempty]
    exact hpay
  refine ⟨sentHandle h p p.length, recvStep (sentHandle h p p.length) p.length,
    hsend, hrecv, ?_, ?_, ?_, ?_, ?_, ?_, ?_, ?_⟩
  · simpa only [sentHandle] using hword
  · simpa only [sentHandle] using hpay
  · simp only [recvStep, hpay1]
    by_cases hg : (sentHandle h p p.length).m_buffer_len < p.length
    · simp [hg, htake]
    · simp only [hg, if_false]
      rw [List.take_left' rfl]
  · simp only [recvStep, sentHandle]
    rcases Nat.lt_or_ge h.m_buffer_len p.length with hg | hg
    · rw [if_pos hg]
      exact (Nat.max_eq_right (Nat.le_of_lt hg)).symm
    · rw [if_neg (Nat.not_lt.mpr hg)]
      exact (Nat.max_eq_left hg).symm
  · simp only [recvStep, sentHandle, MQueue.used]
    omega
  · simp only [recvStep, sentHandle]
    rw [ringWrite_length, hbuf]
  · simp [recvStep, sentHandle]
  · simp [recvStep, sentHandle]

theorem freshHandle_buffer_length (cap s : Nat) :
    (freshHandle cap s).m_queue.m_buffer.length = (freshHandle cap s).m_queue.m_ring_size := by
  simp [freshHandle, freshQueue]

/-- C1: Framing round trip. For every payload `p` with
`0 < len(p) < capacity - 5` (lengths within the `uint32` range of the C
parameter), a `send(p, len(p), _)` on a fresh queue returns `MQ_SUCCESS` and a
following `receive()` returns `MQ_SUCCESS` with `outLen = len(p)` and a
staging buffer whose first `len(p)` bytes equal `p` (ending in the payload's
NUL terminator when the caller includes one, as the framing convention does);
inside the ring the frame is a 4-byte length word followed by the payload
bytes, and for capacity 10 and the 5-byte message "abcd" the buffer offsets
4..8 hold 'a','b','c','d','\0'. -/
theorem C1_framing_round_trip (cap s : Nat) (p : List Nat) (nw : Bool)
    (hp : 0 < p.length) (hcap : p.length < cap - 5) (h32 : p.length < 4294967296) :
    (∃ h1 h2,
      send thdOK (freshHandle cap s) p p.length nw = .ret MQ_SUCCESS h1 ∧
      receive thdOK h1 = .ret MQ_SUCCESS h2 p.length ∧
      h2.m_buffer.take p.length = p ∧
      ringRead cap h1.m_queue.m_buffer 0 4 = u32Bytes p.length ∧
      ringRead cap h1.m_queue.m_buffer 4 p.length = p) ∧
    (∃ h3,
      send thdOK (freshHandle 10 10) [97, 98, 99, 100, 0] 5 nw = .ret MQ_SUCCESS h3 ∧
      (h3.m_queue.m_buffer.drop 4).take 5 = [97, 98, 99, 100, 0]) := by
  constructor
  · have hrt := send_receive_roundtrip thdOK (freshHandle cap s) p nw rfl
      (by simp [freshHandle, freshQueue]) rfl (freshHandle_buffer_length cap s)
      (by simp [freshHandle, freshQueue]; omega) h32
    obtain ⟨h1, h2, hsend, hrecv, hword, hpay, htake, _, _, _, _, _⟩ := hrt
    exact ⟨h1, h2, hsend, hrecv, htake, hword, hpay⟩
  · refine ⟨sentHandle (freshHandle 10 10) [97, 98, 99, 100, 0] 5, ?_, by decide⟩
    exact send_success thdOK (freshHandle 10 10) [97, 98, 99, 100, 0] 5 nw rfl
      (by decide) (by decide)

/-- C1 witness: the theorem applied at capacity 11, staging capacity 10 and
the 5-byte payload "abcd\0". -/
theorem C1_framing_round_trip_witness :
    ∃ h1 h2,
      send thdOK (freshHandle 11 10) [97, 98, 99, 100, 0] 5 false = .ret MQ_SUCCESS h1 ∧
      receive thdOK h1 = .ret MQ_SUCCESS h2 5 ∧
      h2.m_buffer.take 5 = [97, 98, 99, 100, 0] ∧
      ringRead 11 h1.m_queue.m_buffer 0 4 = u32Bytes 5 ∧
      ringRead 11 h1.m_queue.m_buffer 4 5 = [97, 98, 99, 100, 0] :=
  (C1_framing_round_trip 11 10 [97, 98, 99, 100, 0] false (by decide) (by decide)
    (by decide)).1

/-- C2 counterexample: on the `MessageQueueTest.SendMsgError` fixture (queue
capacity 0, so available space is 0, with no error flag and no detach),
`send(data, 5, true)` returns `MQ_WOULD_BLOCK` — the unit test at
message_queue-t.cc:135-136 expects exactly this — so a send whose third
argument is `true` does report back-pressure as a result code rather than
suspending, contradicting the claim. -/
theorem C2_counterexample :
    thdOK.pq_error = false ∧
    handleCap0.m_queue.detached = MQ_NOT_DETACHED ∧
    handleCap0.m_queue.avail = 0 ∧
    send thdOK handleCap0 [97, 97, 97, 97, 0] 5 true = .ret MQ_WOULD_BLOCK handleCap0 := by
  decide

/-- C2 (amended): the third argument of `send` is a no-wait flag, not a
blocking flag. When the available space is less than `4 + len + 1` (including
a queue constructed with capacity 0), no error flag is set and the queue is
not hard-detached, `send(data, len, true)` returns `MQ_WOULD_BLOCK`
immediately with the queue untouched, while `send(data, len, false)` suspends
on the consumer-wait signal. -/
theorem C2_send_nowait_back_pressure (thd : THDq) (h : MQueue_handle)
    (data : List Nat) (len : Nat)
    (herr : thd.pq_error = false)
    (hdet : h.m_queue.detached ≠ MQ_HAVE_DETACHED)
    (hfull : h.m_queue.avail < 4 + len + 1) :
    send thd h data len true = .ret MQ_WOULD_BLOCK h ∧
    send thd h data len false = .suspended h := by
  constructor <;>
    · simp only [send, herr, hfull, if_true]
      rw [if_neg hdet]
      simp

/-- C2 witness: the amended theorem applied on the capacity-0 fixture of
`MessageQueueTest.SendMsgError`. -/
theorem C2_send_nowait_back_pressure_witness :
    send thdOK handleCap0 [97, 97, 97, 97, 0] 5 true = .ret MQ_WOULD_BLOCK handleCap0 ∧
    send thdOK handleCap0 [97, 97, 97, 97, 0] 5 false = .suspended handleCap0 :=
  C2_send_nowait_back_pressure thdOK handleCap0 [97, 97, 97, 97, 0] 5 rfl
    (by decide) (by decide)

/-- C3: Growth on oversized receive. Sending a payload `p` longer than the
endpoint's staging capacity `s` and receiving it grows the staging buffer
transparently: the receive returns `MQ_SUCCESS` with the complete payload and
`outLen = len(p)`, and the endpoint can then receive an even larger payload
`q` the same way. -/
theorem C3_growth_on_oversized_receive (cap s : Nat) (p q : List Nat) (nw : Bool)
    (hs : s < p.length) (hpq : p.length < q.length)
    (hfit : 4 + q.length + 1 ≤ cap) (h32 : q.length < 4294967296) :
    ∃ h1 h2 h3 h4,
      send thdOK (freshHandle cap s) p p.length nw = .ret MQ_SUCCESS h1 ∧
      receive thdOK h1 = .ret MQ_SUCCESS h2 p.length ∧
      h2.m_buffer.take p.length = p ∧
      p.length ≤ h2.m_buffer_len ∧
      send thdOK h2 q q.length nw = .ret MQ_SUCCESS h3 ∧
      receive thdOK h3 = .ret MQ_SUCCESS h4 q.length ∧
      h4.m_buffer.take q.length = q := by
  have hrt1 := send_receive_roundtrip thdOK (freshHandle cap s) p nw rfl
    (by simp [freshHandle, freshQueue]) rfl (freshHandle_buffer_length cap s)
    (by simp [freshHandle, freshQueue]; omega) (by omega)
  obtain ⟨h1, h2, hsend1, hrecv1, _, _, htake1, hlen2, hempty2, hbuf2, hring2, hdet2⟩ := hrt1
  have hdet2n : h2.m_queue.detached ≠ MQ_HAVE_DETACHED := by
    rw [hdet2]
    simp [freshHandle, freshQueue]
  have hrt2 := send_receive_roundtrip thdOK h2 q nw rfl hdet2n hempty2 hbuf2
    (by rw [hring2]; simp [freshHandle, freshQueue]; omega) h32
  obtain ⟨h3, h4, hsend2, hrecv2, _, _, htake2, _, _, _, _, _⟩ := hrt2
  exact ⟨h1, h2, h3, h4, hsend1, hrecv1, htake1,
    by rw [hlen2]; exact Nat.le_max_right _ _, hsend2, hrecv2, htake2⟩

/-- C3 witness: staging capacity 10, ring capacity 100, a 15-byte first
payload (the test's "aaaaabbbbbcccc" with its NUL) and a 20-byte second
payload. -/
theorem C3_growth_on_oversized_receive_witness :
    ∃ h1 h2 h3 h4,
      send thdOK (freshHandle 100 10)
        [97, 97, 97, 97, 97, 98, 98, 98, 98, 98, 99, 99, 99, 99, 0] 15 false
        = .ret MQ_SUCCESS h1 ∧
      receive thdOK h1 = .ret MQ_SUCCESS h2 15 ∧
      h2.m_buffer.take 15 = [97, 97, 97, 97, 97, 98, 98, 98, 98, 98, 99, 99, 99, 99, 0] ∧
      15 ≤ h2.m_buffer_len ∧
      send thdOK h2 (List.replicate 20 100) 20 false = .ret MQ_SUCCESS h3 ∧
      receive thdOK h3 = .ret MQ_SUCCESS h4 20 ∧
      h4.m_buffer.take 20 = List.replicate 20 100 := by
  have := C3_growth_on_oversized_receive 100 10
    [97, 97, 97, 97, 97, 98, 98, 98, 98, 98, 99, 99, 99, 99, 0]
    (List.replicate 20 100) false (by decide) (by decide) (by decide) (by decide)
  simpa using this

/-- C4: Detach-state semantics of `send` on an execution context with no error
flag: a hard-detached (`MQ_HAVE_DETACHED`) queue makes `send` return
`MQ_DETACHED` without delivering the payload (the handle is returned
untouched), while a soft-detached (`MQ_TMP_DETACHED`) queue lets the same
send return `MQ_SUCCESS` with the frame written into the ring. -/
theorem C4_detach_state_send (thd : THDq) (h : MQueue_handle) (data : List Nat)
    (len : Nat) (nw : Bool) (herr : thd.pq_error = false) :
    (h.m_queue.detached = MQ_HAVE_DETACHED →
      send thd h data len nw = .ret MQ_DETACHED h) ∧
    (h.m_queue.detached = MQ_TMP_DETACHED → 4 + len + 1 ≤ h.m_queue.avail →
      send thd h data len nw = .ret MQ_SUCCESS (sentHandle h data len)) := by
  constructor
  · intro hd
    simp [send, herr, hd]
  · intro hd hfit
    exact send_success thd h data len nw herr (by rw [hd]; simp) hfit

/-- C4 witness: the `MessageQueueTest.SendMsgError` fixture (capacity 10,
payload "aaaa\0"), once hard-detached and once soft-detached. -/
theorem C4_detach_state_send_witness :
    send thdOK ⟨⟨10, List.replicate 10 0, 0, 0, MQ_HAVE_DETACHED⟩, 10, List.replicate 10 0⟩
      [97, 97, 97, 97, 0] 5 true
      = .ret MQ_DETACHED
        ⟨⟨10, List.replicate 10 0, 0, 0, MQ_HAVE_DETACHED⟩, 10, List.replicate 10 0⟩ ∧
    send thdOK ⟨⟨10, List.replicate 10 0, 0, 0, MQ_TMP_DETACHED⟩, 10, List.replicate 10 0⟩
      [97, 97, 97, 97, 0] 5 true
      = .ret MQ_SUCCESS
        (sentHandle ⟨⟨10, List.replicate 10 0, 0, 0, MQ_TMP_DETACHED⟩, 10, List.replicate 10 0⟩
          [97, 97, 97, 97, 0] 5) :=
  ⟨(C4_detach_state_send thdOK _ [97, 97, 97, 97, 0] 5 true rfl).1 rfl,
   (C4_detach_state_send thdOK _ [97, 97, 97, 97, 0] 5 true rfl).2 rfl (by decide)⟩

/-- C5: Cancellation-flag precedence. When the execution context's
`thd->pq_error` flag is already set, both `send` and `receive` return
`MQ_DETACHED` with the handle — ring contents, read/write offsets and staging
buffer — completely untouched. -/
theorem C5_cancellation_flag_precedence (thd : THDq) (h : MQueue_handle)
    (data : List Nat) (len : Nat) (nw : Bool) (herr : thd.pq_error = true) :
    send thd h data len nw = .ret MQ_DETACHED h ∧
    receive thd h = .ret MQ_DETACHED h 0 := by
  constructor
  · simp [send, herr]
  · simp [receive, herr]

/-- C5 witness: the `SendMsgError`/`ReceiveMsgError` fixtures with
`thd->pq_error = true`. -/
theorem C5_cancellation_flag_precedence_witness :
    send thdErr (freshHandle 10 10) [97, 97, 97, 97, 0] 5 false
      = .ret MQ_DETACHED (freshHandle 10 10) ∧
    receive thdErr (freshHandle 10 10) = .ret MQ_DETACHED (freshHandle 10 10) 0 :=
  C5_cancellation_flag_precedence thdErr (freshHandle 10 10) [97, 97, 97, 97, 0] 5 false rfl

theorem filterMap_detach_eq_map (l : List Nat) (hasHandle : Nat → Bool)
    (hH : ∀ i ∈ l, hasHandle i = true) :
    l.filterMap (fun i => if hasHandle i then some (GatherEvent.detachQueue i) else none)
      = l.map GatherEvent.detachQueue := by
  induction l with
  | nil => rfl
  | cons a l ih =>
      have ha := hH a (List.mem_cons_self a l)
      rw [List.filterMap_cons, List.map_cons]
      simp only [ha, if_true]
      rw [ih (fun i hi => hH i (List.mem_cons_of_mem a hi))]

theorem sublist_flatMap_of_mem {α β : Type} (f : α → List β) {l : List α} {x : α}
    (hx : x ∈ l) : List.Sublist (f x) (l.flatMap f) := by
  induction l with
  | nil => cases hx
  | cons a l ih =>
      rcases List.mem_cons.mp hx with heq | hx2
      · rw [heq, List.flatMap_cons]
        exact List.sublist_append_left (f a) (l.flatMap f)
      · exact (ih hx2).trans
          (by rw [List.flatMap_cons]; exact List.sublist_append_right (f a) (l.flatMap f))

/-- C6: Shutdown ordering and completeness of `pq_wait_workers_finished`. With
the record gather present and a queue handle in every slot, the trace starts
with a hard-detach of every slot's queue, strictly before any wait or join;
afterwards each wait targets only the `COMPELET | ERROR` mask and happens
exactly for slots whose thread id is non-zero, active and not yet complete —
and for such a slot the wait comes before its join; joins happen exactly for
the slots with a non-zero thread id, and a slot with thread id zero is
neither waited on nor joined. -/
theorem C6_shutdown_ordering (dop : Nat) (hasHandle : Nat → Bool)
    (w : Nat → PQ_worker_manager)
    (hH : ∀ i, i < dop → hasHandle i = true) :
    ∃ tail,
      pq_wait_workers_finished dop true hasHandle w
        = (List.range dop).map GatherEvent.detachQueue ++ tail ∧
      (∀ i, GatherEvent.detachQueue i ∉ tail) ∧
      (∀ i, GatherEvent.joinThread i ∈ tail ↔ i < dop ∧ (w i).thread_id ≠ 0) ∧
      (∀ i m, GatherEvent.waitStatus i m ∈ tail →
        m = PQ_COMPELET ||| PQ_STATE_ERROR ∧ i < dop ∧ (w i).thread_id ≠ 0 ∧
          (w i).m_active = true ∧ (w i).m_status &&& PQ_COMPELET = 0) ∧
      (∀ i, i < dop → (w i).thread_id ≠ 0 → (w i).m_active = true →
        (w i).m_status &&& PQ_COMPELET = 0 →
        List.Sublist [GatherEvent.waitStatus i (PQ_COMPELET ||| PQ_STATE_ERROR),
          GatherEvent.joinThread i] tail) := by
  refine ⟨(List.range dop).flatMap (fun i =>
      if (w i).thread_id ≠ 0 then
        (if (w i).m_active = true ∧ (w i).m_status &&& PQ_COMPELET = 0 then
          [GatherEvent.waitStatus i (PQ_COMPELET ||| PQ_STATE_ERROR)]
        else [])
        ++ [GatherEvent.joinThread i]
      else []), ?_, ?_, ?_, ?_, ?_⟩
  · rw [pq_wait_workers_finished, if_pos rfl,
      filterMap_detach_eq_map (List.range dop) hasHandle
        (fun i hi => hH i (List.mem_range.mp hi))]
  · intro i hmem
    rw [List.mem_flatMap] at hmem
    obtain ⟨j, _, hfj⟩ := hmem
    by_cases ht : (w j).thread_id = 0
    · simp [ht] at hfj
    · by_cases ha : (w j).m_active = true ∧ (w j).m_status &&& PQ_COMPELET = 0
      · simp [ht, ha] at hfj
      · simp [ht, ha] at hfj
  · intro i
    constructor
    · intro hmem
      rw [List.mem_flatMap] at hmem
      obtain ⟨j, hj, hfj⟩ := hmem
      by_cases ht : (w j).thread_id = 0
      · simp [ht] at hfj
      · by_cases ha : (w j).m_active = true ∧ (w j).m_status &&& PQ_COMPELET = 0
        · simp [ht, ha] at hfj
          exact hfj ▸ ⟨List.mem_range.mp hj, hfj ▸ ht⟩
        · simp [ht, ha] at hfj
          exact hfj ▸ ⟨List.mem_range.mp hj, hfj ▸ ht⟩
    · rintro ⟨hi, ht⟩
      rw [List.mem_flatMap]
      refine ⟨i, List.mem_range.mpr hi, ?_⟩
      rw [if_pos ht]
      exact List.mem_append_right _ (List.mem_singleton.mpr rfl)
  · intro i m hmem
    rw [List.mem_flatMap] at hmem
    obtain ⟨j, hj, hfj⟩ := hmem
    by_cases ht : (w j).thread_id = 0
    · simp [ht] at hfj
    · by_cases ha : (w j).m_active = true ∧ (w j).m_status &&& PQ_COMPELET = 0
      · simp [ht, ha] at hfj
        obtain ⟨hji, hm⟩ := hfj
        subst hji
        exact ⟨hm, List.mem_range.mp hj, ht, ha.1, ha.2⟩
      · simp [ht, ha] at hfj
  · intro i hi ht hact hst
    have hfull : (if (w i).thread_id ≠ 0 then
        (if (w i).m_active = true ∧ (w i).m_status &&& PQ_COMPELET = 0 then
          [GatherEvent.waitStatus i (PQ_COMPELET ||| PQ_STATE_ERROR)]
        else [])
        ++ [GatherEvent.joinThread i]
      else [])
        = [GatherEvent.waitStatus i (PQ_COMPELET ||| PQ_STATE_ERROR),
           GatherEvent.joinThread i] := by
      rw [if_pos ht, if_pos ⟨hact, hst⟩]
      rfl
    have := sublist_flatMap_of_mem (fun i =>
      if (w i).thread_id ≠ 0 then
        (if (w i).m_active = true ∧ (w i).m_status &&& PQ_COMPELET = 0 then
          [GatherEvent.waitStatus i (PQ_COMPELET ||| PQ_STATE_ERROR)]
        else [])
        ++ [GatherEvent.joinThread i]
      else []) (List.mem_range.mpr hi)
    simpa only [hfull] using this

theorem pq_launch_loop_all_active (spawn : Nat → Nat) (act : Nat → Bool) :
    ∀ (l : List Nat) (st : LaunchState),
      (∀ i ∈ l, spawn i ≠ 0 → act i = true) →
      pq_launch_loop spawn act false l st =
        if st.launch_workers + (l.filter (fun i => spawn i != 0)).length = 0 then none
        else some
          ⟨st.launch_workers + (l.filter (fun i => spawn i != 0)).length,
           st.warnings ++ l.filter (fun i => spawn i == 0),
           st.detached_slots ++ l.filter (fun i => spawn i == 0)⟩ := by
  intro l
  induction l with
  | nil =>
      intro st _
      simp only [pq_launch_loop, List.filter_nil, List.length_nil, Nat.add_zero,
        List.append_nil]
  | cons a l ih =>
      intro st hact
      have hact' : ∀ i ∈ l, spawn i ≠ 0 → act i = true :=
        fun i hi => hact i (List.mem_cons_of_mem a hi)
      by_cases hs : spawn a = 0
      · have hstep : pq_launch_loop spawn act false (a :: l) st =
            pq_launch_loop spawn act false l
              { st with warnings := st.warnings ++ [a],
                        detached_slots := st.detached_slots ++ [a] } := by
          simp [pq_launch_loop, hs]
        rw [hstep, ih _ hact']
        simp only [List.filter_cons, hs]
        simp [List.append_assoc]
      · have hacta : act a = true := hact a (List.mem_cons_self a l) hs
        have hstep : pq_launch_loop spawn act false (a :: l) st =
            pq_launch_loop spawn act false l
              { st with launch_workers := st.launch_workers + 1 } := by
          simp [pq_launch_loop, hs, hacta]
        rw [hstep, ih _ hact']
        have harith : st.launch_workers + 1 + (l.filter (fun i => spawn i != 0)).length
            = st.launch_workers + ((l.filter (fun i => spawn i != 0)).length + 1) := by
          omega
        simp [List.filter_cons, hs, harith]

theorem pq_launch_loop_abort (spawn : Nat → Nat) (act : Nat → Bool) :
    ∀ (l : List Nat) (st : LaunchState),
      (∃ j ∈ l, spawn j ≠ 0 ∧ act j = false) →
      pq_launch_loop spawn act false l st = none := by
  intro l
  induction l with
  | nil =>
      rintro st ⟨j, hj, _⟩
      cases hj
  | cons a rest ih =>
      rintro st ⟨j, hj, hsp, hja⟩
      by_cases hsa : spawn a = 0
      · have hstep : pq_launch_loop spawn act false (a :: rest) st =
            pq_launch_loop spawn act false rest
              { st with warnings := st.warnings ++ [a],
                        detached_slots := st.detached_slots ++ [a] } := by
          simp [pq_launch_loop, hsa]
        rw [hstep]
        apply ih
        rcases List.mem_cons.mp hj with heq | hj2
        · subst heq
          exact absurd hsa hsp
        · exact ⟨j, hj2, hsp, hja⟩
      · by_cases haa : act a = true
        · have hstep : pq_launch_loop spawn act false (a :: rest) st =
              pq_launch_loop spawn act false rest
                { st with launch_workers := st.launch_workers + 1 } := by
            simp [pq_launch_loop, hsa, haa]
          rw [hstep]
          apply ih
          rcases List.mem_cons.mp hj with heq | hj2
          · subst heq
            rw [hja] at haa
            exact absurd haa Bool.false_ne_true
          · exact ⟨j, hj2, hsp, hja⟩
        · simp [pq_launch_loop, hsa, haa]

/-- C7 counterexample: with both slots spawning (`spawnBoth`, thread ids 7)
but worker 1 failing to become active (`activeFail1`), worker 0 spawns and
becomes active, yet the launch takes the error exit (the `records.cc:544-547`
path where a spawned worker fails `wait_for_status`) — so the launch does not
fail only when zero workers became active. -/
theorem C7_counterexample :
    spawnBoth 0 ≠ 0 ∧ activeFail1 0 = true ∧
    pq_launch_worker spawnBoth activeFail1 false 2 = none := by
  decide

/-- C7 (amended): Partial-launch tolerance. A slot whose thread spawn fails
gets a start-up warning logged and its queue hard-detached while the loop
continues with the remaining slots; when no pre-existing error is set and
every spawned worker becomes active, the launch fails (error exit) exactly
when zero workers spawned — so with `dop = 2`, worker 0 failing to spawn and
worker 1 spawning, the launch succeeds with one active worker and warning and
hard-detach exactly on slot 0. However, a spawned worker that fails to become
active aborts the whole launch even when an earlier worker is already
active. -/
theorem C7_partial_launch_tolerance (spawn : Nat → Nat) (act : Nat → Bool) (dop : Nat) :
    ((∀ i, i < dop → spawn i ≠ 0 → act i = true) →
      ((pq_launch_worker spawn act false dop = none ↔ ∀ i, i < dop → spawn i = 0) ∧
       (∀ st, pq_launch_worker spawn act false dop = some st →
         st.warnings = (List.range dop).filter (fun i => spawn i == 0) ∧
         st.detached_slots = (List.range dop).filter (fun i => spawn i == 0) ∧
         st.launch_workers
           = ((List.range dop).filter (fun i => spawn i != 0)).length))) ∧
    (∀ j, j < dop → spawn j ≠ 0 → act j = false →
      pq_launch_worker spawn act false dop = none) ∧
    (∃ st, pq_launch_worker spawnFail0 alwaysActive false 2 = some st ∧
      st.launch_workers = 1 ∧ st.warnings = [0] ∧ st.detached_slots = [0]) := by
  refine ⟨?_, ?_, ?_⟩
  · intro hact
    have hcl := pq_launch_loop_all_active spawn act (List.range dop) ⟨0, [], []⟩
      (fun i hi => hact i (List.mem_range.mp hi))
    rw [pq_launch_worker]
    refine ⟨?_, ?_⟩
    · rw [hcl]
      by_cases hz : (0 : Nat) + ((List.range dop).filter (fun i => spawn i != 0)).length = 0
      · rw [if_pos hz]
        constructor
        · intro _ i hi
          have hnil : (List.range dop).filter (fun i => spawn i != 0) = [] := by
            rw [← List.length_eq_zero]
            omega
          rw [List.filter_eq_nil_iff] at hnil
          have := hnil i (List.mem_range.mpr hi)
          simpa using this
        · intro _
          rfl
      · rw [if_neg hz]
        constructor
        · intro hc
          exact absurd hc (by simp)
        · intro hall
          exfalso
          apply hz
          rw [Nat.zero_add, List.length_eq_zero, List.filter_eq_nil_iff]
          intro i hi
          simp [hall i (List.mem_range.mp hi)]
    · intro st hst
      rw [hcl] at hst
      by_cases hz : (0 : Nat) + ((List.range dop).filter (fun i => spawn i != 0)).length = 0
      · rw [if_pos hz] at hst
        cases hst
      · rw [if_neg hz] at hst
        injection hst with hst
        rw [← hst]
        simp
  · intro j hj hsp hja
    rw [pq_launch_worker]
    exact pq_launch_loop_abort spawn act (List.range dop) ⟨0, [], []⟩
      ⟨j, List.mem_range.mpr hj, hsp, hja⟩
  · exact ⟨⟨1, [0], [0]⟩, by decide, rfl, rfl, rfl⟩

/-- C7 witness: the amended theorem applied at the `worker 0 fails to spawn`
fixture (launch succeeds with one worker) and at the `worker 1 fails to
activate` fixture (launch aborts). -/
theorem C7_partial_launch_tolerance_witness :
    (pq_launch_worker spawnFail0 alwaysActive false 2 = none ↔
      ∀ i, i < 2 → spawnFail0 i = 0) ∧
    (∃ st, pq_launch_worker spawnFail0 alwaysActive false 2 = some st ∧
      st.launch_workers = 1 ∧ st.warnings = [0] ∧ st.detached_slots = [0]) ∧
    pq_launch_worker spawnBoth activeFail1 false 2 = none :=
  ⟨((C7_partial_launch_tolerance spawnFail0 alwaysActive 2).1 (by decide)).1,
   (C7_partial_launch_tolerance spawnFail0 alwaysActive 2).2.2,
   (C7_partial_launch_tolerance spawnBoth activeFail1 2).2.1 1 (by decide) (by decide) rfl⟩

/-- C6 witness: the theorem applied at `dop = 2` with a handle in every slot,
slot 0 spawned-active-ready and slot 1 never spawned. -/
theorem C6_shutdown_ordering_witness :
    ∃ tail,
      pq_wait_workers_finished 2 true handleAll workersFix
        = (List.range 2).map GatherEvent.detachQueue ++ tail ∧
      (∀ i, GatherEvent.detachQueue i ∉ tail) ∧
      (∀ i, GatherEvent.joinThread i ∈ tail ↔ i < 2 ∧ (workersFix i).thread_id ≠ 0) ∧
      (∀ i m, GatherEvent.waitStatus i m ∈ tail →
        m = PQ_COMPELET ||| PQ_STATE_ERROR ∧ i < 2 ∧ (workersFix i).thread_id ≠ 0 ∧
          (workersFix i).m_active = true ∧ (workersFix i).m_status &&& PQ_COMPELET = 0) ∧
      (∀ i, i < 2 → (workersFix i).thread_id ≠ 0 → (workersFix i).m_active = true →
        (workersFix i).m_status &&& PQ_COMPELET = 0 →
        List.Sublist [GatherEvent.waitStatus i (PQ_COMPELET ||| PQ_STATE_ERROR),
          GatherEvent.joinThread i] tail) :=
  C6_shutdown_ordering 2 handleAll workersFix (fun _ _ => rfl)

/-- C8: End() error-code priority. `End` waits for all workers and then
computes the code: a recorded `HA_ERR_TABLE_DEF_CHANGED` is returned first
(resetting the field, raising nothing); otherwise every condition held by the
template (worker) thread's diagnostics area is re-raised on the coordinator,
the template thread's error is re-raised, and the generic
`ER_PARALLEL_EXEC_ERROR` is raised exactly when the `pq_error` flag is set
while neither the template thread nor the coordinator holds an error (and no
kill or `EXPLAIN ANALYZE` is in progress). -/
theorem C8_end_error_code_priority (dop : Nat) (hasRecordGather : Bool)
    (hasHandle : Nat → Bool) (w : Nat → PQ_worker_manager) (c : ErrCtx) :
    (ParallelScanIterator_End dop hasRecordGather hasHandle w c).1
      = pq_wait_workers_finished dop hasRecordGather hasHandle w ∧
    (ParallelScanIterator_End dop hasRecordGather hasHandle w c).2 = pq_error_code c ∧
    (c.m_ha_err = HA_ERR_TABLE_DEF_CHANGED →
      pq_error_code c
        = ⟨HA_ERR_TABLE_DEF_CHANGED, 0, false, [], [], false⟩) ∧
    (c.m_ha_err ≠ HA_ERR_TABLE_DEF_CHANGED →
      (pq_error_code c).ret = 1 ∧
      (pq_error_code c).m_ha_err_after = c.m_ha_err ∧
      (pq_error_code c).leader_raised = c.temp_conds ∧
      (pq_error_code c).temp_reraised = (if c.temp_is_error then [c.temp_errno] else []) ∧
      ((pq_error_code c).parallel_exec_error_raised = true ↔
        c.pq_error = true ∧ c.temp_is_error = false ∧ c.thd_is_error = false ∧
          c.killed = false ∧ c.running_explain_analyze = false)) := by
  obtain ⟨ha, k, te, tn, tc, the, pe, re⟩ := c
  refine ⟨rfl, rfl, ?_, ?_⟩
  · intro hha
    simp only at hha
    simp [pq_error_code, hha]
  · intro hha
    simp only at hha
    refine ⟨by simp [pq_error_code, hha], by simp [pq_error_code, hha],
      by simp [pq_error_code, hha], by simp [pq_error_code, hha], ?_⟩
    simp only [pq_error_code, if_neg hha]
    cases k <;> cases te <;> cases the <;> cases pe <;> cases re <;> simp

/-- C8 witness: the theorem applied at the table-definition-changed context
and at the bare `pq_error` context. -/
theorem C8_end_error_code_priority_witness :
    pq_error_code errCtxHA = ⟨HA_ERR_TABLE_DEF_CHANGED, 0, false, [], [], false⟩ ∧
    (pq_error_code errCtxGeneric).parallel_exec_error_raised = true :=
  ⟨(C8_end_error_code_priority 2 true handleAll workersFix errCtxHA).2.2.1 rfl,
   ((C8_end_error_code_priority 2 true handleAll workersFix errCtxGeneric).2.2.2
      (by decide)).2.2.2.2.mpr (by decide)⟩

theorem check_pq_wait_loop_spec (dop maxThreads t0 : Nat) :
    ∀ (obs : List WaitObs) (g : Nat), maxThreads < g + dop →
      (((check_pq_wait_loop dop maxThreads t0 obs g).1 = true →
        (check_pq_wait_loop dop maxThreads t0 obs g).2.2 = t0 + dop ∧
        ∃ o ∈ obs, o.running + dop ≤ maxThreads ∧
          (check_pq_wait_loop dop maxThreads t0 obs g).2.1 = o.running + dop) ∧
      ((check_pq_wait_loop dop maxThreads t0 obs g).1 = false →
        (check_pq_wait_loop dop maxThreads t0 obs g).2.2 = t0 ∧
        maxThreads < (check_pq_wait_loop dop maxThreads t0 obs g).2.1 + dop ∧
        ((check_pq_wait_loop dop maxThreads t0 obs g).2.1 = g ∨
          ∃ o ∈ obs, (check_pq_wait_loop dop maxThreads t0 obs g).2.1 = o.running))) := by
  intro obs
  induction obs with
  | nil =>
      intro g hg
      refine ⟨?_, ?_⟩
      · intro hc
        simp [check_pq_wait_loop] at hc
      · intro _
        exact ⟨rfl, hg, Or.inl rfl⟩
  | cons o rest ih =>
      intro g hg
      by_cases ho : o.running + dop ≤ maxThreads
      · have hstep : check_pq_wait_loop dop maxThreads t0 (o :: rest) g
            = (true, o.running + dop, t0 + dop) := by
          simp [check_pq_wait_loop, ho]
        rw [hstep]
        refine ⟨?_, ?_⟩
        · intro _
          exact ⟨rfl, o, List.mem_cons_self o rest, ho, rfl⟩
        · intro hc
          simp at hc
      · by_cases hto : o.timedOut = true
        · have hstep : check_pq_wait_loop dop maxThreads t0 (o :: rest) g
              = (false, o.running, t0) := by
            simp [check_pq_wait_loop, ho, hto]
          rw [hstep]
          refine ⟨?_, ?_⟩
          · intro hc
            simp at hc
          · intro _
            exact ⟨rfl, by show maxThreads < o.running + dop; omega,
              Or.inr ⟨o, List.mem_cons_self o rest, rfl⟩⟩
        · have hstep : check_pq_wait_loop dop maxThreads t0 (o :: rest) g
              = check_pq_wait_loop dop maxThreads t0 rest o.running := by
            simp [check_pq_wait_loop, ho, hto]
          rw [hstep]
          have hg' : maxThreads < o.running + dop := by omega
          obtain ⟨ihT, ihF⟩ := ih o.running hg'
          refine ⟨?_, ?_⟩
          · intro hc
            obtain ⟨ht, o2, ho2, hle, heq⟩ := ihT hc
            exact ⟨ht, o2, List.mem_cons_of_mem o ho2, hle, heq⟩
          · intro hc
            obtain ⟨ht, hgt, hor⟩ := ihF hc
            refine ⟨ht, hgt, ?_⟩
            rcases hor with heq | ⟨o2, ho2, heq⟩
            · exact Or.inr ⟨o, List.mem_cons_self o rest, heq⟩
            · exact Or.inr ⟨o2, List.mem_cons_of_mem o ho2, heq⟩

/-- C9: Worker-budget reservation. `check_pq_running_threads(dop, timeout_ms)`
succeeds exactly when `parallel_threads_running + dop <= parallel_max_threads`
held at its decision point — immediately, or at the counter value observed
after one of the timed waits; on success both the global counter and the
calling thread's `pq_threads_running` grow by exactly `dop` (the global from
the decision-point value), and on failure both counters are left unchanged
(the global stays at its last observed value, which still exceeds the
budget). With space available on entry the call succeeds at once, and with a
zero timeout and no space it fails at once. -/
theorem C9_worker_budget_reservation (dop timeout_ms maxThreads g0 t0 : Nat)
    (obs : List WaitObs) :
    ((check_pq_running_threads dop timeout_ms maxThreads g0 t0 obs).1 = true →
      (check_pq_running_threads dop timeout_ms maxThreads g0 t0 obs).2.2 = t0 + dop ∧
      ∃ r, r + dop ≤ maxThreads ∧
        (check_pq_running_threads dop timeout_ms maxThreads g0 t0 obs).2.1 = r + dop ∧
        (r = g0 ∨ ∃ o ∈ obs, r = o.running)) ∧
    ((check_pq_running_threads dop timeout_ms maxThreads g0 t0 obs).1 = false →
      (check_pq_running_threads dop timeout_ms maxThreads g0 t0 obs).2.2 = t0 ∧
      maxThreads <
        (check_pq_running_threads dop timeout_ms maxThreads g0 t0 obs).2.1 + dop ∧
      ((check_pq_running_threads dop timeout_ms maxThreads g0 t0 obs).2.1 = g0 ∨
        ∃ o ∈ obs,
          (check_pq_running_threads dop timeout_ms maxThreads g0 t0 obs).2.1
            = o.running)) ∧
    (g0 + dop ≤ maxThreads →
      check_pq_running_threads dop timeout_ms maxThreads g0 t0 obs
        = (true, g0 + dop, t0 + dop)) ∧
    (timeout_ms = 0 → maxThreads < g0 + dop →
      check_pq_running_threads dop timeout_ms maxThreads g0 t0 obs
        = (false, g0, t0)) := by
  by_cases hg : g0 + dop ≤ maxThreads
  · have hstep : check_pq_running_threads dop timeout_ms maxThreads g0 t0 obs
        = (true, g0 + dop, t0 + dop) := by
      simp [check_pq_running_threads, hg]
    rw [hstep]
    refine ⟨?_, ?_, ?_, ?_⟩
    · intro _
      exact ⟨rfl, g0, hg, rfl, Or.inl rfl⟩
    · intro hc
      simp at hc
    · intro _
      rfl
    · intro _ hcon
      omega
  · by_cases hto : timeout_ms = 0
    · have hstep : check_pq_running_threads dop timeout_ms maxThreads g0 t0 obs
          = (false, g0, t0) := by
        simp [check_pq_running_threads, hg, hto]
      rw [hstep]
      refine ⟨?_, ?_, ?_, ?_⟩
      · intro hc
        simp at hc
      · intro _
        exact ⟨rfl, by show maxThreads < g0 + dop; omega, Or.inl rfl⟩
      · intro hcon
        omega
      · intro _ _
        rfl
    · have hstep : check_pq_running_threads dop timeout_ms maxThreads g0 t0 obs
          = check_pq_wait_loop dop maxThreads t0 obs g0 := by
        simp [check_pq_running_threads, hg, hto]
      rw [hstep]
      obtain ⟨lT, lF⟩ := check_pq_wait_loop_spec dop maxThreads t0 obs g0 (by omega)
      refine ⟨?_, ?_, ?_, ?_⟩
      · intro hc
        obtain ⟨ht, o, ho, hle, heq⟩ := lT hc
        exact ⟨ht, o.running, hle, heq, Or.inr ⟨o, ho, rfl⟩⟩
      · intro hc
        obtain ⟨ht, hgt, hor⟩ := lF hc
        exact ⟨ht, hgt, hor⟩
      · intro hcon
        omega
      · intro hcon
        omega

/-- C9 witness: the `PqConditionTest.check_pq_running_threads` scenario —
budget 2, `dop = 1`, zero timeout: from a zero counter the call succeeds
bumping both counters to 1; from a full counter it fails leaving them
unchanged. -/
theorem C9_worker_budget_reservation_witness :
    check_pq_running_threads 1 0 2 0 0 [] = (true, 1, 1) ∧
    check_pq_running_threads 1 0 2 2 2 [] = (false, 2, 2) :=
  ⟨(C9_worker_budget_reservation 1 0 2 0 0 []).2.2.1 (by decide),
   (C9_worker_budget_reservation 1 0 2 2 2 []).2.2.2 rfl (by decide)⟩

/-- C10: Implicit frame condition of `set_pq_dop`. The call assigns
`thd->pq_dop = thd->variables.parallel_default_dop` exactly when `no_pq` is
false, `force_parallel_execute` is true and `pq_dop == 0`; in every other
combination `pq_dop` keeps its prior value, and no other field of `thd` is
modified. -/
theorem C10_set_pq_dop_frame (thd : THDpq) :
    (set_pq_dop thd).pq_dop =
      (if thd.no_pq = false ∧ thd.force_parallel_execute = true ∧ thd.pq_dop = 0
        then thd.parallel_default_dop else thd.pq_dop) ∧
    (set_pq_dop thd).no_pq = thd.no_pq ∧
    (set_pq_dop thd).force_parallel_execute = thd.force_parallel_execute ∧
    (set_pq_dop thd).parallel_default_dop = thd.parallel_default_dop ∧
    (set_pq_dop thd).pq_threads_running = thd.pq_threads_running := by
  obtain ⟨np, fp, pd, dop, tr⟩ := thd
  simp only [set_pq_dop]
  cases np <;> cases fp <;> by_cases hd : dop = 0 <;> simp [hd]

end PQModel
